import Mathlib

/-!
Shallow embedding of `slack_ldap_sync.py` (boompig/slack_ldap_sync).

The program reconciles a Slack workspace against an LDAP directory: it
enumerates active directory members by paged LDAP search, lists Slack users
(SCIM or legacy API), computes the users to revoke, applies a delete-ratio
failsafe, and revokes/notifies.  A supervisor loop reruns the cycle forever
and escalates repeated failures to workspace owners.

Network transports are modelled at the wire boundary: HTTP/LDAP responses are
inputs, and the success/failure of each outgoing HTTP call is an oracle
(`revokeOk`, `msgOk`).  Python runtime faults that the code can hit (KeyError
on a missing dict field, IndexError on `[0]` of an empty list,
ZeroDivisionError) are explicit error values, since the Python code raises
and the supervisor catches plain exceptions.  Python `float` arithmetic is
modelled with exact rationals `ℚ`.
-/

namespace SlackLdapSync

/-- Errors a reconciliation cycle can raise, mirroring the Python exceptions:
dict `KeyError`, list `IndexError`, `ZeroDivisionError`, an HTTP error from
`raise_for_status`, the explicit `raise Exception("AD query Warning: Server
ignores RFC 2696 control.")`, and a server that never answers an expected
paged request. -/
inductive PyErr where
  | keyError
  | indexError
  | zeroDivision
  | httpError
  | failsafeExceeded
  | pagingUnsupported
  | noResponse
deriving DecidableEq, Repr

/-- Observable side effects of one cycle: a SCIM DELETE of a Slack user
(`requests.delete` in `disable_slack_user`) and a `chat.postMessage` to one
owner (`slack_message_owners`). -/
inductive SideEffect where
  | revoke (slack_id : String)
  | message (owner_id : String)
deriving DecidableEq, Repr

/-- One member object of a Slack user-list response, holding exactly the
fields the Python code reads.  Fields are `Option` because the code reads
them from loosely-typed JSON: `none` models an absent key (so `user['k']`
raises `KeyError`, while `user.get('k')` yields falsy `None`).
`emails` models SCIM `emails` as the list of the objects' `value` strings;
`profile_email` models legacy `profile.email`. -/
structure SlackUser where
  id : String
  active : Option Bool
  emails : Option (List String)
  profile_email : Option String
  is_restricted : Option Bool
  is_ultra_restricted : Option Bool
  is_owner : Option Bool
deriving DecidableEq, Repr

/-- Startup configuration: `SLACK_MAX_DELETE_FAILSAFE` (default 0.2) and
`USE_SCIM_API`. -/
structure Config where
  maxDeleteFailsafe : ℚ
  useScim : Bool
deriving DecidableEq, Repr

/-- Python dict assignment `d[k] = v` on a dict represented as an ordered
association list: overwrite in place if the key exists, else append. -/
def dictInsert (k v : String) : List (String × String) → List (String × String)
  | [] => [(k, v)]
  | (k', v') :: rest => if k' = k then (k, v) :: rest else (k', v') :: dictInsert k v rest

/-- Python `d.get(k)` on the association-list dict: `none` models `None`. -/
def dictGet (k : String) : List (String × String) → Option String
  | [] => none
  | (k', v) :: rest => if k' = k then some v else dictGet k rest

/-- Python dict assignment `d[k] = True` where the dict is used as a set of
strings: insert the key if absent. -/
def setInsert (k : String) (l : List String) : List String :=
  if k ∈ l then l else l ++ [k]

/-- Truthiness of `guest_users.get(slack_user['id'])`: the stored value is the
guest's profile email, so the check passes only when the id is present AND its
email is a non-empty string. -/
def guestTruthy (guests : List (String × String)) (id : String) : Bool :=
  match dictGet id guests with
  | none => false
  | some v => v ≠ ""

/-- Python `str.lower()`: lower-case each character (emails are ASCII; the
character-wise map is the faithful model). -/
def lower (s : String) : String :=
  ⟨s.data.map Char.toLower⟩

/-- The hard-coded bot-account marker of line 167. -/
def botSuffixStr : String := "@slack-bots.com"

/-- Python `'@slack-bots.com' in slack_user_email`: substring containment. -/
def botSubstr (email : String) : Bool :=
  decide (botSuffixStr.data <:+: email.data)

/-- Embeds `get_guest_users` (lines 97-107): from the legacy `users.list`
members, build the dict id ↦ profile email of each restricted or
ultra-restricted user.  `user.get(flag)` is falsy when absent;
`user['profile']['email']` raises `KeyError` when absent. -/
def get_guest_users (acc : List (String × String)) :
    List SlackUser → Except PyErr (List (String × String))
  | [] => .ok acc
  | u :: rest =>
    if u.is_ultra_restricted.getD false || u.is_restricted.getD false then
      match u.profile_email with
      | none => .error .keyError
      | some e => get_guest_users (dictInsert u.id e acc) rest
    else get_guest_users acc rest

/-- Body of a legacy `users.list` HTTP response (after `raise_for_status` and
JSON decoding): the `members` array. -/
structure UsersListResponse where
  members : List SlackUser
deriving DecidableEq, Repr

/-- Embeds `get_all_slack_users` (lines 48-54): returns `results['members']`
of the legacy listing unchanged — no field renaming, no injected flags. -/
def get_all_slack_users (resp : UsersListResponse) : List SlackUser :=
  resp.members

/-- Embeds `get_all_slack_users_scim` (lines 40-45): returns
`results['Resources']` of the SCIM listing unchanged. -/
def get_all_slack_users_scim (resources : List SlackUser) : List SlackUser :=
  resources

/-- Embeds the candidate-collection loop of `sync_slack_ldap`
(lines 158-171).  Per user, in source order: read
`slack_user['emails'][0]['value'].lower()` (KeyError when `emails` absent,
IndexError when empty — this happens before the `active` check), skip
inactive users, skip users passing the guest/bot check, skip users whose
lowered email is a key of the AD dict, otherwise insert
email ↦ slack id into `slack_users_to_be_deleted` (the constant reason
string 'they do not exist in corp LDAP.' carries no information and is
dropped from the model). -/
def collectCandidates (guests : List (String × String)) (adUsers : List String)
    (acc : List (String × String)) :
    List SlackUser → Except PyErr (List (String × String))
  | [] => .ok acc
  | u :: rest =>
    match u.emails with
    | none => .error .keyError
    | some [] => .error .indexError
    | some (v :: _) =>
      match u.active with
      | none => .error .keyError
      | some false => collectCandidates guests adUsers acc rest
      | some true =>
        if guestTruthy guests u.id || botSubstr (lower v) then
          collectCandidates guests adUsers acc rest
        else if lower v ∈ adUsers then
          collectCandidates guests adUsers acc rest
        else
          collectCandidates guests adUsers (dictInsert (lower v) u.id acc) rest

/-- Python `owners.keys()` on the owner dict. -/
def ownerKeys (owners : List (String × String)) : List String :=
  owners.map Prod.fst

/-- Embeds `slack_message_owners` (lines 122-135): one `chat.postMessage` per
owner id, in order; `raise_for_status` on a failed send aborts the loop, so
recipients after the first failure are never attempted.  Returns the trace of
attempted sends and the outcome. -/
def slack_message_owners (msgOk : String → Bool) :
    List String → List SideEffect × Except PyErr Unit
  | [] => ([], .ok ())
  | o :: rest =>
    if msgOk o then
      let r := slack_message_owners msgOk rest
      (.message o :: r.1, r.2)
    else ([.message o], .error .httpError)

/-- Embeds `disable_slack_user` (lines 138-146): SCIM DELETE of the user
(`raise_for_status` aborts on failure), then notify every owner. -/
def disable_slack_user (revokeOk msgOk : String → Bool) (ownerIds : List String)
    (slack_id : String) : List SideEffect × Except PyErr Unit :=
  if revokeOk slack_id then
    let r := slack_message_owners msgOk ownerIds
    (.revoke slack_id :: r.1, r.2)
  else ([.revoke slack_id], .error .httpError)

/-- Embeds `notify_admin_invalid_user` (lines 187-191): no revoke call, only
the owner notification fan-out. -/
def notify_admin_invalid_user (msgOk : String → Bool) (ownerIds : List String) :
    List SideEffect × Except PyErr Unit :=
  slack_message_owners msgOk ownerIds

/-- Embeds the revocation loop of `sync_slack_ldap` (lines 179-184): for each
collected candidate, `disable_slack_user` (SCIM mode) or
`notify_admin_invalid_user`; an exception from either propagates and aborts
the loop, so later candidates are not processed. -/
def revokeAll (useScim : Bool) (revokeOk msgOk : String → Bool)
    (ownerIds : List String) :
    List (String × String) → List SideEffect × Except PyErr Unit
  | [] => ([], .ok ())
  | (_, slack_id) :: rest =>
    let r := if useScim then disable_slack_user revokeOk msgOk ownerIds slack_id
             else notify_admin_invalid_user msgOk ownerIds
    match r.2 with
    | .error e => (r.1, .error e)
    | .ok _ =>
      let r2 := revokeAll useScim revokeOk msgOk ownerIds rest
      (r.1 ++ r2.1, r2.2)

/-- Embeds `sync_slack_ldap` (lines 149-184) from the point where the four
snapshots are in hand (guest dict, owner dict, Slack user list, AD email
set — each fetch is an external HTTP/LDAP exchange modelled by its own
function).  Collect candidates, compute
`float(len(candidates)) / len(all_slack_users)` (ZeroDivisionError on an
empty Slack list), raise the failsafe when the ratio exceeds
`max_delete_failsafe`, otherwise run the revocation loop. -/
def sync_slack_ldap (cfg : Config) (guests owners : List (String × String))
    (slackUsers : List SlackUser) (adUsers : List String)
    (revokeOk msgOk : String → Bool) : List SideEffect × Except PyErr Unit :=
  match collectCandidates guests adUsers [] slackUsers with
  | .error e => ([], .error e)
  | .ok cands =>
    if slackUsers.length = 0 then ([], .error .zeroDivision)
    else if (cands.length : ℚ) / (slackUsers.length : ℚ) > cfg.maxDeleteFailsafe then
      ([], .error .failsafeExceeded)
    else revokeAll cfg.useScim revokeOk msgOk (ownerKeys owners) cands

/-- One LDAP search result entry, reduced to the attribute dict the code
reads: `entry[1]['mail']` is the (optional) list of values of the `mail`
attribute. -/
structure LDAPEntry where
  mail : Option (List String)
deriving DecidableEq, Repr

/-- One server control of an LDAP response: its OID and its paging cookie. -/
structure LDAPControl where
  controlType : String
  cookie : String
deriving DecidableEq, Repr

/-- One page of LDAP search results as delivered by `l.result3`: the entries
and the response server controls. -/
structure LDAPPage where
  rdata : List LDAPEntry
  serverctrls : List LDAPControl
deriving DecidableEq, Repr

/-- The OID of `SimplePagedResultsControl.controlType` (RFC 2696). -/
def pagedResultsOID : String := "1.2.840.113556.1.4.319"

/-- The list comprehension of lines 78-82: response controls whose type is
the paged-results OID. -/
def pageCtrls (p : LDAPPage) : List LDAPControl :=
  p.serverctrls.filter fun c => decide (c.controlType = pagedResultsOID)

/-- Embeds the entry loop of lines 74-77: for each entry with a truthy first
`mail` value, record the lower-cased email in the accumulator set
(`all_ad_users[email.lower()] = True`).  `entry[1]['mail'][0]` on an empty
value list raises `IndexError`; an entry without `mail`, or with an empty
first value, is skipped. -/
def processEntries (acc : List String) : List LDAPEntry → Except PyErr (List String)
  | [] => .ok acc
  | en :: rest =>
    match en.mail with
    | none => processEntries acc rest
    | some [] => .error .indexError
    | some (v :: _) =>
      if v = "" then processEntries acc rest
      else processEntries (setInsert (lower v) acc) rest

/-- Embeds the paging loop of `get_all_active_ad_users` (lines 57-94).  The
server's behaviour is modelled as the sequence of pages it would deliver to
the successive `search_ext`/`result3` exchanges.  Per page: accumulate the
entries' emails, then inspect the paged-results controls of the response —
none present means the hard `raise` of line 91 (`pagingUnsupported`); an
empty cookie on the first such control means `break` and return the set; a
non-empty cookie means re-issue the search and read the next page.  A server
that stops answering while a further page is expected leaves `result3`
blocked; that exchange is modelled as `noResponse`. -/
def get_all_active_ad_users (acc : List String) :
    List LDAPPage → Except PyErr (List String)
  | [] => .error .noResponse
  | p :: rest =>
    match processEntries acc p.rdata with
    | .error e => .error e
    | .ok acc' =>
      match pageCtrls p with
      | [] => .error .pagingUnsupported
      | c :: _ =>
        if c.cookie = "" then .ok acc'
        else get_all_active_ad_users acc' rest

/-- The normalized email an entry contributes to the directory set, if any. -/
def entryEmailOpt (en : LDAPEntry) : Option String :=
  match en.mail with
  | some (v :: _) => if v = "" then none else some (lower v)
  | _ => none

/-- All normalized emails one page contributes. -/
def pageEmails (p : LDAPPage) : List String :=
  p.rdata.filterMap entryEmailOpt

/-- Embeds one iteration of the `__main__` supervisor loop (lines 198-212):
run `sync_slack_ldap` (its outcome `cycleResult`); on success reset
`error_counter` to 0; on an exception increment it and, exactly when
`error_counter % 48 == 4`, fetch the owners and message them — both of those
calls happen inside the `except` block, so an exception they raise is not
caught and propagates out of the loop (modelled as an `Except.error` result,
terminating the process).  Returns the new counter and whether the
escalation notification was fully sent. -/
def mainLoopIter (error_counter : Nat) (cycleResult : Except PyErr Unit)
    (ownersResult : Except PyErr (List (String × String))) (msgOk : String → Bool) :
    Except PyErr (Nat × Bool) :=
  match cycleResult with
  | .ok _ => .ok (0, false)
  | .error _ =>
    let c := error_counter + 1
    if c % 48 = 4 then
      match ownersResult with
      | .error e2 => .error e2
      | .ok owners =>
        match (slack_message_owners msgOk (ownerKeys owners)).2 with
        | .error e2 => .error e2
        | .ok _ => .ok (c, true)
    else .ok (c, false)

/-- Modelled from the spec (§4.2), for comparison with the source's
`get_all_slack_users`: the spec says the legacy listing "lacks a first-class
active flag (all returned accounts are treated as active)" and that "both
normalize to the same `PlatformAccount` shape", i.e. a legacy member's
identity email is carried over and its active flag is set to true.  The
source performs no such normalization; this definition exists only to state
that divergence. -/
def normalizeLegacyAccount_specModel (u : SlackUser) : SlackUser :=
  ⟨u.id, some true,
    some (match u.profile_email with | some e => [e] | none => []),
    u.profile_email, u.is_restricted, u.is_ultra_restricted, u.is_owner⟩

/-- The conditions under which the collection loop records a user as a
revocation candidate under key `e`: a well-formed first email lowering to
`e`, active, failing the guest-truthiness check, not matching the bot
marker, and absent from the directory set. -/
def qualifies (guests : List (String × String)) (adUsers : List String)
    (u : SlackUser) (e : String) : Prop :=
  (∃ v vs, u.emails = some (v :: vs) ∧ e = lower v) ∧ u.active = some true ∧
    guestTruthy guests u.id = false ∧ botSubstr e = false ∧ e ∉ adUsers

/-- The side-effect trace of a revocation loop (SCIM mode) in which every
revoke and every owner message succeeds. -/
def revokeTraceOk (ownerIds : List String) : List (String × String) → List SideEffect
  | [] => []
  | (_, slack_id) :: rest =>
    .revoke slack_id :: (ownerIds.map .message ++ revokeTraceOk ownerIds rest)

/-! Helper lemmas about the dict/set primitives. -/

theorem mem_dictInsert (k v : String) :
    ∀ (l : List (String × String)) (kv : String × String),
      kv ∈ dictInsert k v l → kv = (k, v) ∨ kv ∈ l := by
  intro l
  induction l with
  | nil => intro kv h; simp [dictInsert] at h; left; exact h
  | cons hd tl ih =>
    intro kv h
    obtain ⟨k', v'⟩ := hd
    simp only [dictInsert] at h
    by_cases hk : k' = k
    · simp [hk] at h
      rcases h with h | h
      · left; simp [h]
      · right; simp [h]
    · simp [hk] at h
      rcases h with h | h
      · right; simp [h]
      · rcases ih kv h with h' | h'
        · left; exact h'
        · right; simp [h']

theorem keys_dictInsert (k v : String) :
    ∀ l : List (String × String),
      (dictInsert k v l).map Prod.fst =
        if k ∈ l.map Prod.fst then l.map Prod.fst else l.map Prod.fst ++ [k] := by
  intro l
  induction l with
  | nil => simp [dictInsert]
  | cons hd tl ih =>
    obtain ⟨k', v'⟩ := hd
    simp only [dictInsert]
    by_cases hk : k' = k
    · simp [hk]
    · have hk' : ¬ (k = k') := fun h => hk h.symm
      simp only [List.map_cons, if_neg hk, ih]
      by_cases hmem : k ∈ tl.map Prod.fst
      · simp [hmem, hk']
      · simp [hmem, hk']

theorem nodup_keys_dictInsert (k v : String) (l : List (String × String))
    (h : (l.map Prod.fst).Nodup) : ((dictInsert k v l).map Prod.fst).Nodup := by
  rw [keys_dictInsert]
  split
  · exact h
  · next hnot =>
    rw [List.nodup_append]
    refine ⟨h, List.nodup_singleton k, ?_⟩
    intro a ha hb
    simp only [List.mem_singleton] at hb
    exact hnot (hb ▸ ha)

theorem dictGet_dictInsert_self (k v : String) :
    ∀ l : List (String × String), dictGet k (dictInsert k v l) = some v := by
  intro l
  induction l with
  | nil => simp [dictInsert, dictGet]
  | cons hd tl ih =>
    obtain ⟨k', v'⟩ := hd
    simp only [dictInsert]
    by_cases hk : k' = k
    · simp [hk, dictGet]
    · simp [hk, dictGet, ih]

theorem mem_setInsert (x k : String) (l : List String) :
    x ∈ setInsert k l ↔ x = k ∨ x ∈ l := by
  simp only [setInsert]
  split
  · constructor
    · intro h; right; exact h
    · rintro (rfl | h)
      · assumption
      · exact h
  · simp only [List.mem_append, List.mem_singleton]
    exact or_comm

theorem dictGet_dictInsert_of_ne (k k' v : String) (hne : k' ≠ k) :
    ∀ l : List (String × String), dictGet k' (dictInsert k v l) = dictGet k' l := by
  intro l
  have hnk : ¬ k = k' := fun h => hne h.symm
  induction l with
  | nil => simp [dictInsert, dictGet, hnk]
  | cons hd tl ih =>
    obtain ⟨k'', v''⟩ := hd
    simp only [dictInsert]
    by_cases hk : k'' = k
    · subst hk
      simp [dictGet, hnk]
    · simp only [if_neg hk, dictGet]
      by_cases hk' : k'' = k'
      · simp [hk']
      · simp [hk', ih]

/-! Helper lemmas about the notification and revocation loops. -/

theorem slack_message_owners_all_ok (msgOk : String → Bool) :
    ∀ l, (∀ o ∈ l, msgOk o = true) →
      slack_message_owners msgOk l = (l.map SideEffect.message, .ok ()) := by
  intro l
  induction l with
  | nil => intro _; rfl
  | cons o rest ih =>
    intro h
    simp only [slack_message_owners, h o (List.mem_cons_self o rest), if_true]
    rw [ih fun x hx => h x (List.mem_cons_of_mem o hx)]
    simp

theorem slack_message_owners_err (msgOk : String → Bool) :
    ∀ l e, (slack_message_owners msgOk l).2 = .error e → e = .httpError := by
  intro l
  induction l with
  | nil => intro e h; simp [slack_message_owners] at h
  | cons o rest ih =>
    intro e h
    simp only [slack_message_owners] at h
    by_cases ho : msgOk o
    · simp [ho] at h; exact ih e h
    · simp [ho] at h; exact h.symm

theorem revokeAll_err (useScim : Bool) (rOk mOk : String → Bool) (os : List String) :
    ∀ cands e, (revokeAll useScim rOk mOk os cands).2 = .error e → e = .httpError := by
  intro cands
  induction cands with
  | nil => intro e h; simp [revokeAll] at h
  | cons kv rest ih =>
    intro e h
    obtain ⟨em, sid⟩ := kv
    simp only [revokeAll] at h
    set r := if useScim then disable_slack_user rOk mOk os sid
             else notify_admin_invalid_user mOk os with hr
    have hstep : ∀ e', r.2 = .error e' → e' = .httpError := by
      intro e' he'
      rw [hr] at he'
      by_cases hs : useScim
      · simp only [hs, if_true, disable_slack_user] at he'
        by_cases hrk : rOk sid
        · simp [hrk] at he'
          exact slack_message_owners_err mOk os e' he'
        · simp [hrk] at he'; exact he'.symm
      · simp only [hs, if_false, notify_admin_invalid_user] at he'
        exact slack_message_owners_err mOk os e' he'
    rcases h2 : r.2 with e' | u
    · rw [h2] at h
      simp at h
      exact h ▸ hstep e' h2
    · rw [h2] at h
      simp at h
      exact ih e h

theorem revokeAll_all_ok (rOk mOk : String → Bool) (os : List String) :
    ∀ cands, (∀ kv ∈ cands, rOk kv.2 = true) → (∀ o ∈ os, mOk o = true) →
      revokeAll true rOk mOk os cands = (revokeTraceOk os cands, .ok ()) := by
  intro cands
  induction cands with
  | nil => intro _ _; rfl
  | cons kv rest ih =>
    intro hc hm
    obtain ⟨em, sid⟩ := kv
    have hk : rOk sid = true := hc (em, sid) (List.mem_cons_self _ _)
    simp only [revokeAll, if_true, disable_slack_user, hk,
      slack_message_owners_all_ok mOk os hm]
    rw [ih (fun x hx => hc x (List.mem_cons_of_mem _ hx)) hm]
    simp [revokeTraceOk]

theorem revokeAll_stops (rOk mOk : String → Bool) (os : List String)
    (slack_id : String) (hid : rOk slack_id = false) :
    ∀ c1 email c2, (∀ kv ∈ c1, rOk kv.2 = true) → (∀ o ∈ os, mOk o = true) →
      revokeAll true rOk mOk os (c1 ++ (email, slack_id) :: c2) =
        (revokeTraceOk os c1 ++ [.revoke slack_id], .error .httpError) := by
  intro c1
  induction c1 with
  | nil =>
    intro email c2 _ _
    simp only [List.nil_append, revokeAll, if_true, disable_slack_user, hid]
    simp [revokeTraceOk]
  | cons kv rest ih =>
    intro email c2 hc hm
    obtain ⟨em, sid⟩ := kv
    have hk : rOk sid = true := hc (em, sid) (List.mem_cons_self _ _)
    simp only [List.cons_append, revokeAll, if_true, disable_slack_user, hk,
      slack_message_owners_all_ok mOk os hm, List.append_eq]
    rw [ih email c2 (fun x hx => hc x (List.mem_cons_of_mem _ hx)) hm]
    simp [revokeTraceOk]

/-! Helper lemmas about the branches of `sync_slack_ldap`. -/

theorem sync_eq_of_collect_err (cfg : Config) (guests owners : List (String × String))
    (slackUsers : List SlackUser) (adUsers : List String)
    (rOk mOk : String → Bool) (e : PyErr)
    (h : collectCandidates guests adUsers [] slackUsers = .error e) :
    sync_slack_ldap cfg guests owners slackUsers adUsers rOk mOk = ([], .error e) := by
  simp [sync_slack_ldap, h]

theorem sync_eq_failsafe (cfg : Config) (guests owners : List (String × String))
    (slackUsers : List SlackUser) (adUsers : List String)
    (rOk mOk : String → Bool) (cands : List (String × String))
    (hc : collectCandidates guests adUsers [] slackUsers = .ok cands)
    (hne : slackUsers.length ≠ 0)
    (hgt : (cands.length : ℚ) / (slackUsers.length : ℚ) > cfg.maxDeleteFailsafe) :
    sync_slack_ldap cfg guests owners slackUsers adUsers rOk mOk =
      ([], .error .failsafeExceeded) := by
  simp only [sync_slack_ldap, hc, hne, if_false, hgt, if_true]

theorem sync_eq_revoke (cfg : Config) (guests owners : List (String × String))
    (slackUsers : List SlackUser) (adUsers : List String)
    (rOk mOk : String → Bool) (cands : List (String × String))
    (hc : collectCandidates guests adUsers [] slackUsers = .ok cands)
    (hne : slackUsers.length ≠ 0)
    (hle : ¬ ((cands.length : ℚ) / (slackUsers.length : ℚ) > cfg.maxDeleteFailsafe)) :
    sync_slack_ldap cfg guests owners slackUsers adUsers rOk mOk =
      revokeAll cfg.useScim rOk mOk (ownerKeys owners) cands := by
  simp only [sync_slack_ldap, hc, hne, if_false, hle, if_true]

/-! Helper lemmas about the candidate-collection loop. -/

theorem collect_ok_of_wf (guests : List (String × String)) (adUsers : List String) :
    ∀ (users : List SlackUser) (acc : List (String × String)),
      (∀ u ∈ users, (∃ v vs, u.emails = some (v :: vs)) ∧ ∃ b, u.active = some b) →
      ∃ cands, collectCandidates guests adUsers acc users = .ok cands := by
  intro users
  induction users with
  | nil => intro acc _; exact ⟨acc, rfl⟩
  | cons u rest ih =>
    intro acc h
    obtain ⟨⟨v, vs, hem⟩, b, hact⟩ := h u (List.mem_cons_self _ _)
    have hrest := fun x hx => h x (List.mem_cons_of_mem _ hx)
    simp only [collectCandidates, hem, hact]
    cases b
    · exact ih acc hrest
    · by_cases hg : (guestTruthy guests u.id || botSubstr (lower v)) = true
      · rw [if_pos hg]
        exact ih acc hrest
      · rw [if_neg hg]
        by_cases had : lower v ∈ adUsers
        · rw [if_pos had]; exact ih acc hrest
        · rw [if_neg had]; exact ih _ hrest

theorem collect_mem (guests : List (String × String)) (adUsers : List String) :
    ∀ (users : List SlackUser) (acc cands : List (String × String)),
      collectCandidates guests adUsers acc users = .ok cands →
      ∀ kv ∈ cands, kv ∈ acc ∨ ∃ u ∈ users, kv.2 = u.id ∧ qualifies guests adUsers u kv.1 := by
  intro users
  induction users with
  | nil =>
    intro acc cands h kv hkv
    simp only [collectCandidates, Except.ok.injEq] at h
    left; exact h ▸ hkv
  | cons u rest ih =>
    intro acc cands h kv hkv
    rcases hem : u.emails with _ | l
    · simp [collectCandidates, hem] at h
    · rcases l with _ | ⟨v, vs⟩
      · simp [collectCandidates, hem] at h
      · rcases hact : u.active with _ | b
        · simp [collectCandidates, hem, hact] at h
        · cases b
          · simp only [collectCandidates, hem, hact] at h
            rcases ih acc cands h kv hkv with h' | ⟨w, hw, hid, hq⟩
            · left; exact h'
            · right; exact ⟨w, List.mem_cons_of_mem _ hw, hid, hq⟩
          · simp only [collectCandidates, hem, hact] at h
            by_cases hg : (guestTruthy guests u.id || botSubstr (lower v)) = true
            · rw [if_pos hg] at h
              rcases ih acc cands h kv hkv with h' | ⟨w, hw, hid, hq⟩
              · left; exact h'
              · right; exact ⟨w, List.mem_cons_of_mem _ hw, hid, hq⟩
            · rw [if_neg hg] at h
              by_cases had : lower v ∈ adUsers
              · rw [if_pos had] at h
                rcases ih acc cands h kv hkv with h' | ⟨w, hw, hid, hq⟩
                · left; exact h'
                · right; exact ⟨w, List.mem_cons_of_mem _ hw, hid, hq⟩
              · rw [if_neg had] at h
                rcases ih _ cands h kv hkv with h' | ⟨w, hw, hid, hq⟩
                · rcases mem_dictInsert _ _ _ _ h' with h'' | h''
                  · right
                    refine ⟨u, List.mem_cons_self _ _, ?_, ?_⟩
                    · rw [h'']
                    · rw [h'']
                      simp only [Bool.or_eq_true, not_or, Bool.not_eq_true] at hg
                      exact ⟨⟨v, vs, hem, rfl⟩, hact, hg.1, hg.2, had⟩
                  · left; exact h''
                · right; exact ⟨w, List.mem_cons_of_mem _ hw, hid, hq⟩

theorem collect_keys_nodup (guests : List (String × String)) (adUsers : List String) :
    ∀ (users : List SlackUser) (acc cands : List (String × String)),
      collectCandidates guests adUsers acc users = .ok cands →
      (acc.map Prod.fst).Nodup → (cands.map Prod.fst).Nodup := by
  intro users
  induction users with
  | nil =>
    intro acc cands h hacc
    simp only [collectCandidates, Except.ok.injEq] at h
    exact h ▸ hacc
  | cons u rest ih =>
    intro acc cands h hacc
    rcases hem : u.emails with _ | l
    · simp [collectCandidates, hem] at h
    · rcases l with _ | ⟨v, vs⟩
      · simp [collectCandidates, hem] at h
      · rcases hact : u.active with _ | b
        · simp [collectCandidates, hem, hact] at h
        · cases b
          · simp only [collectCandidates, hem, hact] at h
            exact ih acc cands h hacc
          · simp only [collectCandidates, hem, hact] at h
            by_cases hg : (guestTruthy guests u.id || botSubstr (lower v)) = true
            · rw [if_pos hg] at h
              exact ih acc cands h hacc
            · rw [if_neg hg] at h
              by_cases had : lower v ∈ adUsers
              · rw [if_pos had] at h
                exact ih acc cands h hacc
              · rw [if_neg had] at h
                exact ih _ cands h (nodup_keys_dictInsert _ _ _ hacc)

theorem collect_append (guests : List (String × String)) (adUsers : List String)
    (l2 : List SlackUser) :
    ∀ (l1 : List SlackUser) (acc : List (String × String)),
      collectCandidates guests adUsers acc (l1 ++ l2) =
        match collectCandidates guests adUsers acc l1 with
        | .error e => .error e
        | .ok c => collectCandidates guests adUsers c l2 := by
  intro l1
  induction l1 with
  | nil => intro acc; rfl
  | cons u rest ih =>
    intro acc
    rcases hem : u.emails with _ | l
    · simp [collectCandidates, hem]
    · rcases l with _ | ⟨v, vs⟩
      · simp [collectCandidates, hem]
      · rcases hact : u.active with _ | b
        · simp [collectCandidates, hem, hact]
        · cases b
          · simp only [List.cons_append, collectCandidates, hem, hact]
            exact ih acc
          · simp only [List.cons_append, collectCandidates, hem, hact]
            by_cases hg : (guestTruthy guests u.id || botSubstr (lower v)) = true
            · rw [if_pos hg, if_pos hg]
              exact ih acc
            · rw [if_neg hg, if_neg hg]
              by_cases had : lower v ∈ adUsers
              · rw [if_pos had, if_pos had]
                exact ih acc
              · rw [if_neg had, if_neg had]
                exact ih _

/-! Helper lemmas about the guest-classification dict. -/

theorem get_guest_users_stable (k g : String) :
    ∀ (legacy : List SlackUser) (acc guests : List (String × String)),
      get_guest_users acc legacy = .ok guests →
      dictGet k acc = some g →
      (∀ m ∈ legacy, m.id = k → m.profile_email = some g) →
      dictGet k guests = some g := by
  intro legacy
  induction legacy with
  | nil =>
    intro acc guests h hacc _
    simp only [get_guest_users, Except.ok.injEq] at h
    exact h ▸ hacc
  | cons m rest ih =>
    intro acc guests h hacc hall
    rcases hb : (m.is_ultra_restricted.getD false || m.is_restricted.getD false) with _ | _
    · simp only [get_guest_users, hb, Bool.false_eq_true, if_false] at h
      exact ih acc guests h hacc
        fun x hx hxk => hall x (List.mem_cons_of_mem _ hx) hxk
    · rcases hpe : m.profile_email with _ | e
      · simp [get_guest_users, hb, hpe] at h
      · simp only [get_guest_users, hb, hpe, if_true] at h
        by_cases hid : m.id = k
        · have h2 := hall m (List.mem_cons_self _ _) hid
          rw [hpe] at h2
          have heg : e = g := Option.some.inj h2
          subst heg
          exact ih _ guests h (hid ▸ dictGet_dictInsert_self m.id e acc)
            fun x hx hxk => hall x (List.mem_cons_of_mem _ hx) hxk
        · have hne : k ≠ m.id := fun hk => hid hk.symm
          exact ih _ guests h
            ((dictGet_dictInsert_of_ne m.id k e hne acc) ▸ hacc)
            fun x hx hxk => hall x (List.mem_cons_of_mem _ hx) hxk

theorem get_guest_users_records (g : String) :
    ∀ (legacy : List SlackUser) (lm : SlackUser) (acc guests : List (String × String)),
      lm ∈ legacy →
      (lm.is_ultra_restricted.getD false || lm.is_restricted.getD false) = true →
      lm.profile_email = some g →
      (∀ m ∈ legacy, m.id = lm.id → m = lm) →
      get_guest_users acc legacy = .ok guests →
      dictGet lm.id guests = some g := by
  intro legacy
  induction legacy with
  | nil => intro lm acc guests h; simp at h
  | cons m rest ih =>
    intro lm acc guests hmem hr hpe huniq h
    rcases List.mem_cons.mp hmem with rfl | hmem'
    · simp only [get_guest_users, hr, hpe, if_true] at h
      refine get_guest_users_stable lm.id g rest _ guests h
        (dictGet_dictInsert_self lm.id g acc) ?_
      intro x hx hxk
      rw [huniq x (List.mem_cons_of_mem _ hx) hxk]
      exact hpe
    · rcases hrm : (m.is_ultra_restricted.getD false || m.is_restricted.getD false) with _ | _
      · simp only [get_guest_users, hrm, Bool.false_eq_true, if_false] at h
        exact ih lm acc guests hmem' hr hpe
          (fun x hx hxk => huniq x (List.mem_cons_of_mem _ hx) hxk) h
      · rcases hpm : m.profile_email with _ | e
        · simp [get_guest_users, hrm, hpm] at h
        · simp only [get_guest_users, hrm, hpm, if_true] at h
          exact ih lm _ guests hmem' hr hpe
            (fun x hx hxk => huniq x (List.mem_cons_of_mem _ hx) hxk) h

/-! Helper lemmas about directory enumeration. -/

theorem processEntries_ok :
    ∀ (entries : List LDAPEntry) (acc : List String),
      (∀ en ∈ entries, en.mail ≠ some []) →
      ∃ s, processEntries acc entries = .ok s ∧
        ∀ x, x ∈ s ↔ x ∈ acc ∨ x ∈ entries.filterMap entryEmailOpt := by
  intro entries
  induction entries with
  | nil =>
    intro acc _
    exact ⟨acc, rfl, by simp⟩
  | cons en rest ih =>
    intro acc h
    have hrest := fun x hx => h x (List.mem_cons_of_mem _ hx)
    rcases hem : en.mail with _ | l
    · obtain ⟨s, hs, hmem⟩ := ih acc hrest
      refine ⟨s, ?_, ?_⟩
      · simp only [processEntries, hem]; exact hs
      · intro x
        rw [hmem x]
        simp [List.filterMap_cons, entryEmailOpt, hem]
    · rcases l with _ | ⟨v, vs⟩
      · exact absurd hem (h en (List.mem_cons_self _ _))
      · by_cases hv : v = ""
        · obtain ⟨s, hs, hmem⟩ := ih acc hrest
          refine ⟨s, ?_, ?_⟩
          · simp only [processEntries, hem, hv, if_pos]; exact hs
          · intro x
            rw [hmem x]
            simp [List.filterMap_cons, entryEmailOpt, hem, hv]
        · obtain ⟨s, hs, hmem⟩ := ih (setInsert (lower v) acc) hrest
          refine ⟨s, ?_, ?_⟩
          · simp only [processEntries, hem, if_neg hv]; exact hs
          · intro x
            rw [hmem x]
            rw [mem_setInsert]
            simp only [List.filterMap_cons, entryEmailOpt, hem, if_neg hv,
              List.mem_cons]
            tauto

theorem enum_ok :
    ∀ (ps : List LDAPPage) (plast : LDAPPage) (acc : List String),
      (∀ p ∈ ps ++ [plast], ∀ en ∈ p.rdata, en.mail ≠ some []) →
      (∀ p ∈ ps, ∃ c cs, pageCtrls p = c :: cs ∧ c.cookie ≠ "") →
      (∃ c cs, pageCtrls plast = c :: cs ∧ c.cookie = "") →
      ∃ s, get_all_active_ad_users acc (ps ++ [plast]) = .ok s ∧
        ∀ x, x ∈ s ↔ x ∈ acc ∨ ∃ p ∈ ps ++ [plast], x ∈ pageEmails p := by
  intro ps
  induction ps with
  | nil =>
    intro plast acc hwf _ hlast
    obtain ⟨c, cs, hctrl, hcookie⟩ := hlast
    obtain ⟨s, hs, hmem⟩ :=
      processEntries_ok plast.rdata acc (hwf plast (by simp))
    refine ⟨s, ?_, ?_⟩
    · simp only [List.nil_append, get_all_active_ad_users, hs, hctrl, hcookie,
        if_pos]
    · intro x
      rw [hmem x]
      simp [pageEmails]
  | cons p ps ih =>
    intro plast acc hwf hmid hlast
    obtain ⟨c, cs, hctrl, hcookie⟩ := hmid p (List.mem_cons_self _ _)
    obtain ⟨s1, hs1, hmem1⟩ :=
      processEntries_ok p.rdata acc (hwf p (by simp))
    obtain ⟨s, hs, hmem⟩ :=
      ih plast s1 (fun q hq => hwf q (List.mem_cons_of_mem _ hq))
        (fun q hq => hmid q (List.mem_cons_of_mem _ hq)) hlast
    refine ⟨s, ?_, ?_⟩
    · simp only [List.cons_append, get_all_active_ad_users, hs1, hctrl,
        if_neg hcookie]
      exact hs
    · intro x
      rw [hmem x, hmem1 x]
      simp only [List.cons_append, List.mem_cons, pageEmails]
      constructor
      · rintro ((h | h) | ⟨q, hq, hx⟩)
        · exact Or.inl h
        · exact Or.inr ⟨p, by simp, h⟩
        · exact Or.inr ⟨q, by simp [hq], hx⟩
      · rintro (h | ⟨q, hq, hx⟩)
        · exact Or.inl (Or.inl h)
        · rcases hq with rfl | hq
          · exact Or.inl (Or.inr hx)
          · exact Or.inr ⟨q, hq, hx⟩

theorem enum_missing_ctrl :
    ∀ (ps : List LDAPPage) (p : LDAPPage) (rest : List LDAPPage) (acc : List String),
      (∀ q ∈ ps, ∀ en ∈ q.rdata, en.mail ≠ some []) →
      (∀ q ∈ ps, ∃ c cs, pageCtrls q = c :: cs ∧ c.cookie ≠ "") →
      (∀ en ∈ p.rdata, en.mail ≠ some []) →
      pageCtrls p = [] →
      get_all_active_ad_users acc (ps ++ p :: rest) = .error .pagingUnsupported := by
  intro ps
  induction ps with
  | nil =>
    intro p rest acc _ _ hpwf hctrl
    obtain ⟨s, hs, _⟩ := processEntries_ok p.rdata acc hpwf
    simp only [List.nil_append, get_all_active_ad_users, hs, hctrl]
  | cons q ps ih =>
    intro p rest acc hwf hmid hpwf hctrl
    obtain ⟨c, cs, hc, hcookie⟩ := hmid q (List.mem_cons_self _ _)
    obtain ⟨s1, hs1, _⟩ :=
      processEntries_ok q.rdata acc (hwf q (List.mem_cons_self _ _))
    simp only [List.cons_append, get_all_active_ad_users, hs1, hc,
      if_neg hcookie]
    exact ih p rest s1 (fun x hx => hwf x (List.mem_cons_of_mem _ hx))
      (fun x hx => hmid x (List.mem_cons_of_mem _ hx)) hpwf hctrl

/-! Claim theorems. -/

/-- C1: for every platform snapshot with at least one account (whose member
records are well formed, so no field-lookup error preempts the guard), the
cycle fails with the failsafe error if and only if the ratio of candidates to
snapshot size strictly exceeds `maxDeleteFailsafe`; and when the guard trips,
the cycle performs no revoke and no per-candidate notification side effect:
the guard is evaluated on the complete candidate set before any revocation
starts. -/
theorem failsafe_guard_complete
    (cfg : Config) (guests owners : List (String × String))
    (slackUsers : List SlackUser) (adUsers : List String)
    (rOk mOk : String → Bool)
    (hne : slackUsers ≠ [])
    (hwf : ∀ u ∈ slackUsers,
      (∃ v vs, u.emails = some (v :: vs)) ∧ ∃ b, u.active = some b) :
    ∃ cands, collectCandidates guests adUsers [] slackUsers = .ok cands ∧
      (((sync_slack_ldap cfg guests owners slackUsers adUsers rOk mOk).2 =
          .error .failsafeExceeded) ↔
        (cands.length : ℚ) / (slackUsers.length : ℚ) > cfg.maxDeleteFailsafe) ∧
      ((cands.length : ℚ) / (slackUsers.length : ℚ) > cfg.maxDeleteFailsafe →
        sync_slack_ldap cfg guests owners slackUsers adUsers rOk mOk =
          ([], .error .failsafeExceeded)) := by
  obtain ⟨cands, hc⟩ := collect_ok_of_wf guests adUsers slackUsers [] hwf
  have hlen : slackUsers.length ≠ 0 := by simpa [List.length_eq_zero] using hne
  refine ⟨cands, hc, ⟨?_, ?_⟩, ?_⟩
  · intro hfail
    by_contra hle
    rw [sync_eq_revoke cfg guests owners slackUsers adUsers rOk mOk cands hc hlen hle]
      at hfail
    have h2 := revokeAll_err cfg.useScim rOk mOk (ownerKeys owners) cands _ hfail
    exact absurd h2 (by decide)
  · intro hgt
    rw [sync_eq_failsafe cfg guests owners slackUsers adUsers rOk mOk cands hc hlen hgt]
  · intro hgt
    exact sync_eq_failsafe cfg guests owners slackUsers adUsers rOk mOk cands hc hlen hgt

/-- Witness for C1: one active account absent from an empty directory set,
failsafe 1/5; the guard trips and nothing is revoked. -/
theorem failsafe_guard_complete_witness :
    ∃ cands,
      collectCandidates [] [] []
        [⟨"U1", some true, some ["b@x.com"], none, none, none, none⟩] = .ok cands ∧
      (((sync_slack_ldap ⟨1/5, true⟩ [] []
          [⟨"U1", some true, some ["b@x.com"], none, none, none, none⟩] []
          (fun _ => true) (fun _ => true)).2 = .error .failsafeExceeded) ↔
        (cands.length : ℚ) /
          (([⟨"U1", some true, some ["b@x.com"], none, none, none, none⟩] :
            List SlackUser).length : ℚ) > (⟨1/5, true⟩ : Config).maxDeleteFailsafe) ∧
      ((cands.length : ℚ) /
          (([⟨"U1", some true, some ["b@x.com"], none, none, none, none⟩] :
            List SlackUser).length : ℚ) > (⟨1/5, true⟩ : Config).maxDeleteFailsafe →
        sync_slack_ldap ⟨1/5, true⟩ [] []
          [⟨"U1", some true, some ["b@x.com"], none, none, none, none⟩] []
          (fun _ => true) (fun _ => true) = ([], .error .failsafeExceeded)) :=
  failsafe_guard_complete ⟨1/5, true⟩ [] []
    [⟨"U1", some true, some ["b@x.com"], none, none, none, none⟩] []
    (fun _ => true) (fun _ => true) (by simp)
    (by
      intro u hu
      simp only [List.mem_singleton] at hu
      subst hu
      exact ⟨⟨"b@x.com", [], rfl⟩, true, rfl⟩)

/-- C2: a cycle over an empty platform snapshot always fails (the ratio
computation divides by `len(all_slack_users) = 0`); it never returns
successfully with ratio 0 and zero candidates. -/
theorem empty_snapshot_errors (cfg : Config) (guests owners : List (String × String))
    (adUsers : List String) (rOk mOk : String → Bool) :
    sync_slack_ldap cfg guests owners [] adUsers rOk mOk =
      ([], .error .zeroDivision) := rfl

/-- C10: the candidate map is keyed by normalized email, so (a) its keys are
always distinct — two accounts sharing an absent email yield at most one
candidate; (b) a later qualifying account with the same email overwrites the
earlier entry (the stored slack id is the later account's); and (c) the
failsafe guard compares `|candidates| / |snapshot|`, whose numerator counts
the distinct candidate emails and whose denominator counts every account in
the snapshot. -/
theorem candidate_map_distinct_emails :
    (∀ (guests : List (String × String)) (adUsers : List String)
        (users : List SlackUser) (cands : List (String × String)),
      collectCandidates guests adUsers [] users = .ok cands →
      (cands.map Prod.fst).Nodup) ∧
    (∀ (guests : List (String × String)) (adUsers : List String)
        (users : List SlackUser) (u : SlackUser) (e : String)
        (cands : List (String × String)),
      collectCandidates guests adUsers [] users = .ok cands →
      qualifies guests adUsers u e →
      collectCandidates guests adUsers [] (users ++ [u]) =
          .ok (dictInsert e u.id cands) ∧
        dictGet e (dictInsert e u.id cands) = some u.id) ∧
    (∀ (cfg : Config) (guests owners : List (String × String))
        (users : List SlackUser) (adUsers : List String)
        (rOk mOk : String → Bool) (cands : List (String × String)),
      collectCandidates guests adUsers [] users = .ok cands →
      users.length ≠ 0 →
      ((sync_slack_ldap cfg guests owners users adUsers rOk mOk).2 =
          .error .failsafeExceeded ↔
        (cands.length : ℚ) / (users.length : ℚ) > cfg.maxDeleteFailsafe)) := by
  refine ⟨?_, ?_, ?_⟩
  · intro guests adUsers users cands hc
    exact collect_keys_nodup guests adUsers users [] cands hc (by simp)
  · intro guests adUsers users u e cands hc hq
    obtain ⟨⟨v, vs, hem, he⟩, hact, hg, hb, had⟩ := hq
    have hone : collectCandidates guests adUsers cands [u] =
        .ok (dictInsert e u.id cands) := by
      subst he
      simp only [collectCandidates, hem, hact]
      rw [if_neg (by simp [hg, hb]), if_neg had]
    constructor
    · rw [collect_append guests adUsers [u] users [], hc]
      exact hone
    · exact dictGet_dictInsert_self e u.id cands
  · intro cfg guests owners users adUsers rOk mOk cands hc hlen
    constructor
    · intro hfail
      by_contra hle
      rw [sync_eq_revoke cfg guests owners users adUsers rOk mOk cands hc hlen hle]
        at hfail
      have h2 := revokeAll_err cfg.useScim rOk mOk (ownerKeys owners) cands _ hfail
      exact absurd h2 (by decide)
    · intro hgt
      rw [sync_eq_failsafe cfg guests owners users adUsers rOk mOk cands hc hlen hgt]

/-- Witness for C10: two active accounts sharing the absent email `a@x.com`
produce one candidate whose stored id is the later account's. -/
theorem candidate_map_distinct_emails_witness :
    ((([("a@x.com", "U1")] : List (String × String)).map Prod.fst).Nodup) ∧
    (collectCandidates [] [] []
        ([⟨"U1", some true, some ["a@x.com"], none, none, none, none⟩] ++
          [⟨"U2", some true, some ["A@X.com"], none, none, none, none⟩]) =
        .ok (dictInsert "a@x.com" "U2" [("a@x.com", "U1")]) ∧
      dictGet "a@x.com" (dictInsert "a@x.com" "U2" [("a@x.com", "U1")]) =
        some "U2") ∧
    ((sync_slack_ldap ⟨1/5, true⟩ [] []
        [⟨"U1", some true, some ["a@x.com"], none, none, none, none⟩] []
        (fun _ => true) (fun _ => true)).2 = .error .failsafeExceeded ↔
      ((([("a@x.com", "U1")] : List (String × String)).length : ℚ) /
        (([⟨"U1", some true, some ["a@x.com"], none, none, none, none⟩] :
          List SlackUser).length : ℚ) > (⟨1/5, true⟩ : Config).maxDeleteFailsafe)) :=
  ⟨candidate_map_distinct_emails.1 [] []
      [⟨"U1", some true, some ["a@x.com"], none, none, none, none⟩]
      [("a@x.com", "U1")] rfl,
    candidate_map_distinct_emails.2.1 [] []
      [⟨"U1", some true, some ["a@x.com"], none, none, none, none⟩]
      ⟨"U2", some true, some ["A@X.com"], none, none, none, none⟩ "a@x.com"
      [("a@x.com", "U1")] rfl
      ⟨⟨"A@X.com", [], rfl, by decide⟩, rfl, rfl, by decide, by decide⟩,
    candidate_map_distinct_emails.2.2 ⟨1/5, true⟩ [] []
      [⟨"U1", some true, some ["a@x.com"], none, none, none, none⟩] []
      (fun _ => true) (fun _ => true) [("a@x.com", "U1")] rfl (by decide)⟩

theorem slack_message_owners_stops (msgOk : String → Bool) (o : String)
    (ho : msgOk o = false) :
    ∀ (l1 l2 : List String), (∀ x ∈ l1, msgOk x = true) →
      slack_message_owners msgOk (l1 ++ o :: l2) =
        ((l1 ++ [o]).map SideEffect.message, .error .httpError) := by
  intro l1
  induction l1 with
  | nil =>
    intro l2 _
    simp [slack_message_owners, ho]
  | cons x rest ih =>
    intro l2 h
    have hx : msgOk x = true := h x (List.mem_cons_self _ _)
    simp only [List.cons_append, slack_message_owners, hx, if_true, List.append_eq]
    rw [ih l2 fun y hy => h y (List.mem_cons_of_mem _ hy)]
    simp

/-- Counterexample to C5: per-candidate errors are not local.  With two
owners where the first send fails, the second owner is never attempted; with
two candidates where every revoke fails, only the first candidate's revoke is
ever attempted (the trace of the whole cycle is exactly one revoke call). -/
theorem per_candidate_error_aborts_cex :
    slack_message_owners (fun _ => false) ["O1", "O2"] =
      ([.message "O1"], .error .httpError) ∧
    (sync_slack_ldap ⟨1, true⟩ [] []
        [⟨"U1", some true, some ["a@x.com"], none, none, none, none⟩,
         ⟨"U2", some true, some ["b@x.com"], none, none, none, none⟩] []
        (fun _ => false) (fun _ => true)).1 = [.revoke "U1"] := by
  refine ⟨rfl, ?_⟩
  rw [sync_eq_revoke ⟨1, true⟩ [] []
    [⟨"U1", some true, some ["a@x.com"], none, none, none, none⟩,
     ⟨"U2", some true, some ["b@x.com"], none, none, none, none⟩] []
    (fun _ => false) (fun _ => true)
    [("a@x.com", "U1"), ("b@x.com", "U2")] rfl (by decide) (by norm_num)]
  rfl

/-- C5 (amended): per-candidate errors abort the rest of the cycle rather
than being local.  A failing message to one recipient stops the owner
fan-out at that recipient — recipients after it are not attempted — and a
failing revoke for one candidate stops the revocation loop at that candidate
— candidates after it are not processed (candidates before it stay fully
processed). -/
theorem per_candidate_error_aborts_rest :
    (∀ (msgOk : String → Bool) (l1 : List String) (o : String) (l2 : List String),
      (∀ x ∈ l1, msgOk x = true) → msgOk o = false →
      slack_message_owners msgOk (l1 ++ o :: l2) =
        ((l1 ++ [o]).map SideEffect.message, .error .httpError)) ∧
    (∀ (rOk mOk : String → Bool) (os : List String) (slack_id : String)
        (c1 : List (String × String)) (email : String)
        (c2 : List (String × String)),
      (∀ kv ∈ c1, rOk kv.2 = true) → (∀ o ∈ os, mOk o = true) →
      rOk slack_id = false →
      revokeAll true rOk mOk os (c1 ++ (email, slack_id) :: c2) =
        (revokeTraceOk os c1 ++ [.revoke slack_id], .error .httpError)) :=
  ⟨fun msgOk l1 o l2 h ho => slack_message_owners_stops msgOk o ho l1 l2 h,
   fun rOk mOk os slack_id c1 email c2 hc hm hid =>
     revokeAll_stops rOk mOk os slack_id hid c1 email c2 hc hm⟩

/-- Witness for the amended C5: concrete aborted fan-out and revocation. -/
theorem per_candidate_error_aborts_rest_witness :
    slack_message_owners (fun o => o != "O2") (["O1"] ++ "O2" :: ["O3"]) =
      ((["O1"] ++ ["O2"]).map SideEffect.message, .error .httpError) ∧
    revokeAll true (fun i => i != "U2") (fun _ => true) ["O1"]
        ([("a@x.com", "U1")] ++ ("b@x.com", "U2") :: [("c@x.com", "U3")]) =
      (revokeTraceOk ["O1"] [("a@x.com", "U1")] ++ [.revoke "U2"],
        .error .httpError) :=
  ⟨per_candidate_error_aborts_rest.1 (fun o => o != "O2") ["O1"] "O2" ["O3"]
      (by decide) (by decide),
   per_candidate_error_aborts_rest.2 (fun i => i != "U2") (fun _ => true) ["O1"]
      "U2" [("a@x.com", "U1")] "b@x.com" [("c@x.com", "U3")]
      (by decide) (by decide) (by decide)⟩

/-- C4: one supervisor-loop iteration sends the escalation notification on a
failing cycle exactly when the incremented consecutive-failure counter
satisfies `counter % 48 == 4` — that is, at counts 4, 52, 100, … — and at no
other count (provided fetching owners and messaging them succeed, see C9 for
the failing case), and a successful cycle always resets the counter to 0. -/
theorem escalation_cadence :
    (∀ (counter : Nat) (ownersResult : Except PyErr (List (String × String)))
        (msgOk : String → Bool),
      mainLoopIter counter (.ok ()) ownersResult msgOk = .ok (0, false)) ∧
    (∀ (counter : Nat) (e : PyErr) (owners : List (String × String))
        (msgOk : String → Bool),
      (∀ o ∈ ownerKeys owners, msgOk o = true) →
      mainLoopIter counter (.error e) (.ok owners) msgOk =
        .ok (counter + 1, decide ((counter + 1) % 48 = 4)) ∧
      (((counter + 1) % 48 = 4) ↔ ∃ k, counter + 1 = 4 + 48 * k)) := by
  refine ⟨fun _ _ _ => rfl, ?_⟩
  intro counter e owners msgOk hmsg
  constructor
  · simp only [mainLoopIter]
    by_cases h4 : (counter + 1) % 48 = 4
    · rw [if_pos h4, slack_message_owners_all_ok msgOk _ hmsg]
      simp [h4]
    · rw [if_neg h4]
      simp [h4]
  · constructor
    · intro h4
      exact ⟨(counter + 1) / 48, by omega⟩
    · rintro ⟨k, hk⟩
      omega

/-- Witness for C4: the 52nd consecutive failure escalates, and a success at
counter 51 resets to 0. -/
theorem escalation_cadence_witness :
    mainLoopIter 51 (.ok ()) (.ok []) (fun _ => true) = .ok (0, false) ∧
    (mainLoopIter 51 (.error .httpError) (.ok [("O1", "o@x.com")])
        (fun _ => true) = .ok (52, decide ((51 + 1) % 48 = 4)) ∧
      ((51 + 1) % 48 = 4 ↔ ∃ k, 51 + 1 = 4 + 48 * k)) :=
  ⟨escalation_cadence.1 51 (.ok []) (fun _ => true),
   escalation_cadence.2 51 .httpError [("O1", "o@x.com")] (fun _ => true)
     (by decide)⟩

/-- C9 (code evaluated at the failing input): the supervisor loop is not
unconditionally error-absorbing.  When the 4th consecutive failure triggers
the escalation path, the owner fetch and the owner messages are issued inside
the `except` handler; if either raises (platform unreachable — precisely when
failures are likely), the exception propagates out of the `while` loop and
the process dies, contradicting "every failure, including one occurring while
producing the escalation notification itself, is absorbed". -/
theorem escalation_failure_propagates :
    mainLoopIter 3 (.error .zeroDivision) (.error .httpError) (fun _ => true) =
      .error .httpError ∧
    mainLoopIter 3 (.error .zeroDivision) (.ok [("O1", "o@x.com")])
      (fun _ => false) = .error .httpError :=
  ⟨rfl, rfl⟩

/-- C3: directory enumeration over a finite page sequence in which every page
carries the paged-results control and every page but the last has a non-empty
continuation cookie terminates (the model is structurally recursive) with
exactly the union of all pages' normalized entries; and whenever the page the
loop reaches lacks the control, enumeration fails with the paging-unsupported
error instead of returning the partial set accumulated so far. -/
theorem pagination_union_or_unsupported :
    (∀ (ps : List LDAPPage) (plast : LDAPPage),
      (∀ p ∈ ps ++ [plast], ∀ en ∈ p.rdata, en.mail ≠ some []) →
      (∀ p ∈ ps, ∃ c cs, pageCtrls p = c :: cs ∧ c.cookie ≠ "") →
      (∃ c cs, pageCtrls plast = c :: cs ∧ c.cookie = "") →
      ∃ s, get_all_active_ad_users [] (ps ++ [plast]) = .ok s ∧
        ∀ x, x ∈ s ↔ ∃ p ∈ ps ++ [plast], x ∈ pageEmails p) ∧
    (∀ (ps : List LDAPPage) (p : LDAPPage) (rest : List LDAPPage),
      (∀ q ∈ ps, ∀ en ∈ q.rdata, en.mail ≠ some []) →
      (∀ q ∈ ps, ∃ c cs, pageCtrls q = c :: cs ∧ c.cookie ≠ "") →
      (∀ en ∈ p.rdata, en.mail ≠ some []) →
      pageCtrls p = [] →
      get_all_active_ad_users [] (ps ++ p :: rest) = .error .pagingUnsupported) := by
  constructor
  · intro ps plast hwf hmid hlast
    obtain ⟨s, hs, hmem⟩ := enum_ok ps plast [] hwf hmid hlast
    refine ⟨s, hs, fun x => ?_⟩
    rw [hmem x]
    simp
  · intro ps p rest hwf hmid hpwf hctrl
    exact enum_missing_ctrl ps p rest [] hwf hmid hpwf hctrl

/-- Witness for C3: a two-page enumeration returning the union of both pages,
and a control-less response failing enumeration. -/
theorem pagination_union_or_unsupported_witness :
    (∃ s, get_all_active_ad_users []
        (([⟨[⟨some ["A@X.com"]⟩], [⟨pagedResultsOID, "c1"⟩]⟩] : List LDAPPage) ++
          [⟨[⟨some ["b@x.com"]⟩], [⟨pagedResultsOID, ""⟩]⟩]) = .ok s ∧
      ∀ x, x ∈ s ↔ ∃ p ∈
        (([⟨[⟨some ["A@X.com"]⟩], [⟨pagedResultsOID, "c1"⟩]⟩] : List LDAPPage) ++
          [⟨[⟨some ["b@x.com"]⟩], [⟨pagedResultsOID, ""⟩]⟩]),
        x ∈ pageEmails p) ∧
    get_all_active_ad_users []
      (([] : List LDAPPage) ++ (⟨[⟨some ["c@x.com"]⟩], []⟩ : LDAPPage) :: []) =
      .error .pagingUnsupported :=
  ⟨pagination_union_or_unsupported.1
      [⟨[⟨some ["A@X.com"]⟩], [⟨pagedResultsOID, "c1"⟩]⟩]
      ⟨[⟨some ["b@x.com"]⟩], [⟨pagedResultsOID, ""⟩]⟩
      (by decide)
      (by
        intro p hp
        simp only [List.mem_singleton] at hp
        subst hp
        exact ⟨⟨pagedResultsOID, "c1"⟩, [], rfl, by decide⟩)
      ⟨⟨pagedResultsOID, ""⟩, [], rfl, rfl⟩,
   pagination_union_or_unsupported.2 [] ⟨[⟨some ["c@x.com"]⟩], []⟩ []
      (by simp) (by simp) (by decide) rfl⟩

/-- C7: a platform account whose email agrees, after lower-casing both sides,
with a directory identity harvested by the (successful) paged enumeration
never appears in the cycle's candidate set: no candidate is keyed by that
normalized email, whatever the letter-case difference between the two
sources. -/
theorem case_insensitive_match_never_candidate
    (ps : List LDAPPage) (plast : LDAPPage) (adUsers : List String)
    (hwf : ∀ p ∈ ps ++ [plast], ∀ en ∈ p.rdata, en.mail ≠ some [])
    (hmid : ∀ p ∈ ps, ∃ c cs, pageCtrls p = c :: cs ∧ c.cookie ≠ "")
    (hlast : ∃ c cs, pageCtrls plast = c :: cs ∧ c.cookie = "")
    (henum : get_all_active_ad_users [] (ps ++ [plast]) = .ok adUsers)
    (dirEmail : String) (p : LDAPPage) (en : LDAPEntry) (vs : List String)
    (hp : p ∈ ps ++ [plast]) (hen : en ∈ p.rdata)
    (hmail : en.mail = some (dirEmail :: vs)) (hdir : dirEmail ≠ "")
    (guests : List (String × String)) (slackUsers : List SlackUser)
    (u : SlackUser) (e : String) (es : List String)
    (cands : List (String × String))
    (hu : u ∈ slackUsers) (hact : u.active = some true)
    (hem : u.emails = some (e :: es))
    (hcase : lower e = lower dirEmail)
    (hcol : collectCandidates guests adUsers [] slackUsers = .ok cands) :
    ∀ kv ∈ cands, kv.1 ≠ lower e := by
  obtain ⟨s, hs, hmem⟩ := enum_ok ps plast [] hwf hmid hlast
  have hsa : s = adUsers := by
    rw [hs] at henum
    injection henum
  have hin : lower dirEmail ∈ adUsers := by
    rw [← hsa, hmem]
    refine Or.inr ⟨p, hp, ?_⟩
    simp only [pageEmails, List.mem_filterMap]
    exact ⟨en, hen, by simp [entryEmailOpt, hmail, hdir]⟩
  intro kv hkv hkv1
  rcases collect_mem guests adUsers slackUsers [] cands hcol kv hkv with
    h | ⟨w, _, _, hq⟩
  · simp at h
  · obtain ⟨_, _, _, _, had⟩ := hq
    exact had (by rw [hkv1, hcase]; exact hin)

/-- Witness for C7: the directory holds `A@X.com`; the platform account with
email `a@X.COM` is skipped, and the one candidate the cycle does produce
(for the unrelated `b@x.com`) is not keyed by that normalized email. -/
theorem case_insensitive_match_never_candidate_witness :
    (("b@x.com", "U2") : String × String).1 ≠ lower "a@X.COM" :=
  case_insensitive_match_never_candidate
    [] ⟨[⟨some ["A@X.com"]⟩], [⟨pagedResultsOID, ""⟩]⟩ ["a@x.com"]
    (by decide) (by simp) ⟨⟨pagedResultsOID, ""⟩, [], rfl, rfl⟩ rfl
    "A@X.com" ⟨[⟨some ["A@X.com"]⟩], [⟨pagedResultsOID, ""⟩]⟩
    ⟨some ["A@X.com"]⟩ [] (by simp) (by simp) rfl (by decide)
    [] [⟨"U1", some true, some ["a@X.COM"], none, none, none, none⟩,
      ⟨"U2", some true, some ["b@x.com"], none, none, none, none⟩]
    ⟨"U1", some true, some ["a@X.COM"], none, none, none, none⟩
    "a@X.COM" [] [("b@x.com", "U2")] (by simp) rfl rfl (by decide) rfl
    ("b@x.com", "U2") (by simp)

/-- Counterexample to C8: a restricted (guest) account whose recorded guest
email is the empty string defeats the dict-truthiness guest check and becomes
a revocation candidate even though it is classified as a guest. -/
theorem guest_empty_email_is_candidate :
    (⟨"U1", none, none, some "", some true, none, none⟩ : SlackUser).is_restricted =
      some true ∧
    get_guest_users [] [⟨"U1", none, none, some "", some true, none, none⟩] =
      .ok [("U1", "")] ∧
    collectCandidates [("U1", "")] [] []
      [⟨"U1", some true, some ["b@x.com"], none, none, none, none⟩] =
      .ok [("b@x.com", "U1")] :=
  ⟨rfl, rfl, rfl⟩

/-- C8 (amended): a guest (restricted or ultra-restricted) account never
contributes a candidate provided its recorded guest email is non-empty — the
code's dict-get truthiness check, which an empty recorded email defeats (see
the counterexample) — and an account whose lowered first email ends with the
bot marker `@slack-bots.com` never contributes a candidate; both hold even
when the account's email is absent from the directory set. -/
theorem guest_bot_never_candidate
    (legacy : List SlackUser) (guests : List (String × String))
    (adUsers : List String) (slackUsers : List SlackUser)
    (cands : List (String × String)) (u : SlackUser)
    (hcol : collectCandidates guests adUsers [] slackUsers = .ok cands)
    (huniq : ∀ v ∈ slackUsers, v.id = u.id → v = u)
    (hcase :
      (∃ lm g, lm ∈ legacy ∧
        (lm.is_ultra_restricted.getD false || lm.is_restricted.getD false) = true ∧
        lm.profile_email = some g ∧ g ≠ "" ∧ lm.id = u.id ∧
        (∀ m ∈ legacy, m.id = lm.id → m = lm) ∧
        get_guest_users [] legacy = .ok guests) ∨
      (∀ v vs, u.emails = some (v :: vs) → botSuffixStr.data <:+ (lower v).data)) :
    ∀ kv ∈ cands, kv.2 ≠ u.id := by
  intro kv hkv hid
  rcases collect_mem guests adUsers slackUsers [] cands hcol kv hkv with
    h | ⟨w, hw, hwid, hq⟩
  · simp at h
  · have hwu : w = u := huniq w hw (by rw [← hwid, hid])
    subst hwu
    obtain ⟨⟨v, vs, hem, he⟩, hact, hg, hb, had⟩ := hq
    rcases hcase with ⟨lm, g, hlm, hr, hpe, hgne, hlmid, hluniq, hguests⟩ | hbot
    · have hd : dictGet w.id guests = some g := by
        rw [← hlmid]
        exact get_guest_users_records g legacy lm [] guests hlm hr hpe hluniq hguests
      have ht : guestTruthy guests w.id = true := by
        simp [guestTruthy, hd, hgne]
      rw [ht] at hg
      exact Bool.noConfusion hg
    · have hsuf := hbot v vs hem
      have ht : botSubstr (lower v) = true := by
        simp only [botSubstr, decide_eq_true_eq]
        exact hsuf.isInfix
      rw [he, ht] at hb
      exact Bool.noConfusion hb

/-- Witness for the amended C8: the restricted account `U1` with a non-empty
recorded guest email is skipped, so the cycle's one candidate (the ordinary
absent account `U2`) does not carry `U1`'s id. -/
theorem guest_bot_never_candidate_witness :
    (("b@x.com", "U2") : String × String).2 ≠
      (⟨"U1", some true, some ["g@x.com"], none, none, none, none⟩ :
        SlackUser).id :=
  guest_bot_never_candidate
    [⟨"U1", none, none, some "g@x.com", some true, none, none⟩]
    [("U1", "g@x.com")] []
    [⟨"U1", some true, some ["g@x.com"], none, none, none, none⟩,
      ⟨"U2", some true, some ["b@x.com"], none, none, none, none⟩]
    [("b@x.com", "U2")]
    ⟨"U1", some true, some ["g@x.com"], none, none, none, none⟩
    rfl (by decide)
    (Or.inl ⟨⟨"U1", none, none, some "g@x.com", some true, none, none⟩, "g@x.com",
      by simp, rfl, rfl, by decide, rfl, by decide, rfl⟩)
    ("b@x.com", "U2") (by simp)

/-- Counterexample to C6: a member in the legacy `users.list` wire shape
(`profile.email` present, no SCIM `active` or `emails` keys) is returned by
the legacy listing unchanged and then makes the reconciler fail with a field
lookup error — it is not consumed as an active account of the common
`PlatformAccount` shape; normalizing it as the spec describes would instead
make it a consumable active account. -/
theorem legacy_member_not_treated_active :
    get_all_slack_users ⟨[⟨"U2", none, none, some "a@x.com", none, none, none⟩]⟩ =
      [⟨"U2", none, none, some "a@x.com", none, none, none⟩] ∧
    collectCandidates [] [] []
      [⟨"U2", none, none, some "a@x.com", none, none, none⟩] =
      .error .keyError ∧
    collectCandidates [] [] []
      [normalizeLegacyAccount_specModel
        ⟨"U2", none, none, some "a@x.com", none, none, none⟩] =
      .ok [("a@x.com", "U2")] :=
  ⟨rfl, rfl, rfl⟩

/-- C6 (amended): the reconciliation step applies one and the same selection
logic to whichever listing the mode flag retrieved — both retrieval functions
return their response array unchanged — but no normalization to a common
shape happens and legacy accounts are not treated as active: the loop reads
the SCIM fields `emails` and `active` from either list, and a member lacking
either field aborts the cycle with a key error. -/
theorem retrieval_modes_not_normalized :
    (∀ resp : UsersListResponse, get_all_slack_users resp = resp.members) ∧
    (∀ resources : List SlackUser, get_all_slack_users_scim resources = resources) ∧
    (∀ (guests : List (String × String)) (adUsers : List String)
        (acc : List (String × String)) (u : SlackUser) (rest : List SlackUser),
      u.emails = none →
      collectCandidates guests adUsers acc (u :: rest) = .error .keyError) ∧
    (∀ (guests : List (String × String)) (adUsers : List String)
        (acc : List (String × String)) (u : SlackUser) (rest : List SlackUser)
        (v : String) (vs : List String),
      u.emails = some (v :: vs) → u.active = none →
      collectCandidates guests adUsers acc (u :: rest) = .error .keyError) := by
  refine ⟨fun _ => rfl, fun _ => rfl, ?_, ?_⟩
  · intro guests adUsers acc u rest hem
    simp [collectCandidates, hem]
  · intro guests adUsers acc u rest v vs hem hact
    simp [collectCandidates, hem, hact]

/-- Witness for the amended C6: both retrieval functions are the identity on
their response arrays, and legacy-shaped members abort candidate collection. -/
theorem retrieval_modes_not_normalized_witness :
    get_all_slack_users ⟨[]⟩ = [] ∧
    get_all_slack_users_scim [] = [] ∧
    collectCandidates [] [] []
      [⟨"U2", none, none, some "a@x.com", none, none, none⟩] = .error .keyError ∧
    collectCandidates [] [] []
      [⟨"U3", none, some ["a@x.com"], none, none, none, none⟩] =
      .error .keyError :=
  ⟨retrieval_modes_not_normalized.1 ⟨[]⟩,
   retrieval_modes_not_normalized.2.1 [],
   retrieval_modes_not_normalized.2.2.1 [] [] []
     ⟨"U2", none, none, some "a@x.com", none, none, none⟩ [] rfl,
   retrieval_modes_not_normalized.2.2.2 [] [] []
     ⟨"U3", none, some ["a@x.com"], none, none, none, none⟩ [] "a@x.com" []
     rfl rfl⟩

end SlackLdapSync
